import Mathlib

/-!
Verification of the batch-orchestration scripts of the W-Exome-seq pipeline
repository.  The Python sources are shallowly embedded: strings stay strings,
file systems become lists of paths, external commands become argv lists judged
by an oracle, and code that can raise (`IndexError`, `int()` failures) returns
`Option`.  Python's core string operations (`strip`, `split`, `replace`,
`startswith`, substring containment, `int`) are re-implemented structurally
over `List Char` so that all definitions evaluate by kernel reduction.
-/

/-- Whitespace set stripped by Python `str.strip()` (ASCII part). -/
def pyIsSpace (c : Char) : Bool :=
  c == ' ' || c == '\t' || c == '\n' || c == '\r' || c == '\x0b' || c == '\x0c'

/-- Strip `pyIsSpace` characters from both ends of a character list. -/
def trimChars (l : List Char) : List Char :=
  ((l.dropWhile pyIsSpace).reverse.dropWhile pyIsSpace).reverse

/-- Model of Python `str.strip()`. -/
def pyStrip (s : String) : String := String.mk (trimChars s.toList)

/-- Fuel-driven worker for `pySplit`; the fuel is the input length, so the
fallback second equation is never reached for a nonempty separator. -/
def splitOnAuxC (sep : List Char) : Nat → List Char → List Char → List (List Char)
  | _, [], acc => [acc.reverse]
  | 0, rest, acc => [acc.reverse ++ rest]
  | fuel + 1, c :: rest, acc =>
    if sep.isPrefixOf (c :: rest) then
      acc.reverse :: splitOnAuxC sep fuel ((c :: rest).drop sep.length) []
    else
      splitOnAuxC sep fuel rest (c :: acc)

/-- Model of Python `str.split(sep)` with an explicit nonempty separator. -/
def pySplit (s sep : String) : List String :=
  (splitOnAuxC sep.toList s.toList.length s.toList []).map String.mk

/-- Fuel-driven worker for `pyReplace` (left-to-right, non-overlapping). -/
def replaceAuxC (pat repl : List Char) : Nat → List Char → List Char
  | _, [] => []
  | 0, s => s
  | fuel + 1, c :: rest =>
    if pat.isPrefixOf (c :: rest) then
      repl ++ replaceAuxC pat repl fuel ((c :: rest).drop pat.length)
    else
      c :: replaceAuxC pat repl fuel rest

/-- Model of Python `str.replace(pat, repl)` for a nonempty pattern. -/
def pyReplace (s pat repl : String) : String :=
  String.mk (replaceAuxC pat.toList repl.toList s.toList.length s.toList)

/-- Model of Python `str.startswith(pre)`. -/
def pyStartsWith (s pre : String) : Bool := pre.toList.isPrefixOf s.toList

/-- Substring containment over character lists. -/
def containsSub : List Char → List Char → Bool
  | [], pat => pat.isEmpty
  | c :: rest, pat => pat.isPrefixOf (c :: rest) || containsSub rest pat

/-- Model of Python `pat in s` (substring containment). -/
def pyIn (pat s : String) : Bool := containsSub s.toList pat.toList

/-- Digits-only parser used by `pyInt`. -/
def parseNatDigits (cs : List Char) : Option Nat :=
  if cs.isEmpty then none
  else if cs.all Char.isDigit then
    some (cs.foldl (fun a c => a * 10 + (c.toNat - '0'.toNat)) 0)
  else none

/-- Model of Python `int(s)`: surrounding whitespace, optional single sign,
then decimal digits; anything else raises, i.e. returns `none`. -/
def pyInt (s : String) : Option Int :=
  match trimChars s.toList with
  | '-' :: rest => (parseNatDigits rest).map (fun n => -(n : Int))
  | '+' :: rest => (parseNatDigits rest).map (fun n => (n : Int))
  | cs => (parseNatDigits cs).map (fun n => (n : Int))

/-! ### tmb_cal.py -/

/-- Consequence terms considered relevant for TMB (tmb_cal.py, `tmb_effects`). -/
def tmb_effects : List String :=
  ["missense_variant", "stop_gained", "stop_lost",
   "start_lost", "frameshift_variant", "inframe_insertion",
   "inframe_deletion", "splice_acceptor_variant", "splice_donor_variant"]

/-- CSQ scan of one INFO column: take the first `CSQ=` field of the
`;`-separated INFO string and test whether some `,`-separated transcript
annotation has its second `|`-field in the effect set (the `break` in the
source makes one hit enough). -/
def csqHit (effects : List String) (info : String) : Bool :=
  match (pySplit info ";").filter (fun x => pyStartsWith x "CSQ=") with
  | [] => false
  | f :: _ =>
    (pySplit (pyReplace f "CSQ=" "") ",").any (fun ann =>
      match (pySplit ann "|").get? 1 with
      | some cons => effects.contains cons
      | none => false)

/-- Model of `count_tmb_mutations` (tmb_cal.py): the file is a list of lines;
`none` models the `IndexError` raised when a data line lacks column 7 or 8. -/
def count_tmb_mutations (effects : List String) : List String → Option Nat
  | [] => some 0
  | line :: rest =>
    if pyStartsWith line "#" then count_tmb_mutations effects rest
    else
      let columns := pySplit (pyStrip line) "\t"
      match columns.get? 6 with
      | none => none
      | some filt =>
        if filt ≠ "PASS" then count_tmb_mutations effects rest
        else
          match columns.get? 7 with
          | none => none
          | some info =>
            match count_tmb_mutations effects rest with
            | none => none
            | some n => some (if csqHit effects info then n + 1 else n)

/-- Spec-side qualification predicate for one record, following the spec's
words: a non-header record whose FILTER column is `PASS` and whose CSQ
annotation carries at least one allow-listed consequence term. -/
def tmbQualifies (effects : List String) (line : String) : Bool :=
  !pyStartsWith line "#" &&
    ((pySplit (pyStrip line) "\t").get? 6 == some "PASS") &&
    (match (pySplit (pyStrip line) "\t").get? 7 with
     | some info => csqHit effects info
     | none => false)

/-- Model of `get_coding_region_size`'s line filter: non-blank after
stripping and not starting with `#`. -/
def region_line_ok (line : String) : Bool :=
  !(trimChars line.toList).isEmpty && !pyStartsWith line "#"

/-- Columns 2 and 3 of a region line as integers (`none` models the
`IndexError`/`ValueError` the source would raise). -/
def parse_region_line (line : String) : Option (Int × Int) :=
  let parts := pySplit (pyStrip line) "\t"
  match parts.get? 1 with
  | none => none
  | some s1 =>
    match pyInt s1 with
    | none => none
    | some a =>
      match parts.get? 2 with
      | none => none
      | some s2 =>
        match pyInt s2 with
        | none => none
        | some b => some (a, b)

/-- Accumulated `end - start` over qualifying lines (tmb_cal.py main loop of
`get_coding_region_size`). -/
def total_bases : List String → Option Int
  | [] => some 0
  | line :: rest =>
    if region_line_ok line then
      match parse_region_line line with
      | none => none
      | some se =>
        match total_bases rest with
        | none => none
        | some t => some (se.2 - se.1 + t)
    else total_bases rest

/-- Model of `get_coding_region_size` (tmb_cal.py): total bases divided by
`1e6`, with exact rational arithmetic standing in for Python floats. -/
def get_coding_region_size (lines : List String) : Option ℚ :=
  (total_bases lines).map (fun t => (t : ℚ) / 1000000)

/-- Spec-side sum of `(end - start)` over qualifying region lines. -/
def spec_region_sum (lines : List String) : Int :=
  (((lines.filter region_line_ok).filterMap parse_region_line).map
    (fun p => p.2 - p.1)).sum

/-- Three-line BED-style demo file from the spec, intervals
`(0,100)`, `(200,250)`, `(1000,1500)`. -/
def demo_bed : List String :=
  ["chr1\t0\t100", "chr1\t200\t250", "chr1\t1000\t1500"]

/-- Demo variant file from the spec: a header, one PASS record annotated
`missense_variant`, one non-PASS record annotated `stop_gained`. -/
def demo_vcf : List String :=
  ["#CHROM\tPOS\tID\tREF\tALT\tQUAL\tFILTER\tINFO",
   "chr1\t100\t.\tA\tT\t.\tPASS\tDP=50;CSQ=T|missense_variant|MODERATE",
   "chr1\t200\t.\tG\tC\t.\tweak_evidence\tDP=12;CSQ=C|stop_gained|HIGH"]

/-! ### run_all_sequenza.py — sample locator

A scanned directory entry is a pair `(name, isDir)`.  Python `dict`s keyed by
patient id are modelled as association lists with Python's insertion-order
semantics: inserting an existing key updates the value in place, a new key is
appended at the end.  Iterating a dict is iterating the list. -/

/-- Python-dict insertion over an association list. -/
def dictInsert : List (String × String) → String → String → List (String × String)
  | [], k, v => [(k, v)]
  | (k', v') :: rest, k, v =>
    if k' = k then (k, v) :: rest else (k', v') :: dictInsert rest k v

/-- Python-dict lookup over an association list. -/
def dictLookup (k : String) : List (String × String) → Option String
  | [] => none
  | (k', v) :: rest => if k' = k then some v else dictLookup k rest

/-- Patient id derived from a normal-sample folder name (`name.replace("_Normal", "")`). -/
def stripNormalTag (name : String) : String := pyReplace name "_Normal" ""

/-- Patient id derived from a tumour-sample folder name
(`name.replace("_Tumour", "").replace("_Tumor", "")`). -/
def stripTumourTag (name : String) : String :=
  pyReplace (pyReplace name "_Tumour" "") "_Tumor" ""

/-- One iteration of the classification loop in `find_sample_pairs`: skip
non-directories, test `"Normal" in name` first, then `"Tumour"`/`"Tumor"`. -/
def classifyStep (maps : List (String × String) × List (String × String))
    (e : String × Bool) : List (String × String) × List (String × String) :=
  if e.2 then
    if pyIn "Normal" e.1 then
      (dictInsert maps.1 (stripNormalTag e.1) e.1, maps.2)
    else if pyIn "Tumour" e.1 || pyIn "Tumor" e.1 then
      (maps.1, dictInsert maps.2 (stripTumourTag e.1) e.1)
    else maps
  else maps

/-- The two mappings (`normals`, `tumours`) built by `find_sample_pairs`. -/
def classifyDirs (dirs : List (String × Bool)) :
    List (String × String) × List (String × String) :=
  dirs.foldl classifyStep ([], [])

/-- Model of `find_sample_pairs` (run_all_sequenza.py): first component is the
pair list `(patient_id, tumor_path, normal_path)`, second the list of patient
ids warned about as tumour-only (the `WARNING` prints). -/
def find_sample_pairs (dirs : List (String × Bool)) :
    List (String × String × String) × List String :=
  let maps := classifyDirs dirs
  (maps.2.filterMap (fun e => (dictLookup e.1 maps.1).map (fun n => (e.1, e.2, n))),
   maps.2.filterMap (fun e =>
     if (dictLookup e.1 maps.1).isSome then none else some e.1))

/-- Patient id an entry would contribute during classification (`none` when the
entry is skipped: not a directory, or no recognized tag). -/
def derivedPid (e : String × Bool) : Option String :=
  if e.2 then
    if pyIn "Normal" e.1 then some (stripNormalTag e.1)
    else if pyIn "Tumour" e.1 || pyIn "Tumor" e.1 then some (stripTumourTag e.1)
    else none
  else none

/-- Patient id an entry contributes to the tumour mapping specifically. -/
def tumourDerived (e : String × Bool) : Option String :=
  if e.2 && !pyIn "Normal" e.1 && (pyIn "Tumour" e.1 || pyIn "Tumor" e.1) then
    some (stripTumourTag e.1)
  else none

/-! ### run_all_sequenza.py — workspace preparer -/

/-- Python `Path.suffix`: the final extension, empty for hidden files and
names without an interior dot. -/
def pathSuffix (name : String) : String :=
  let cs := name.toList
  let tail := (cs.reverse.takeWhile (fun c => !(c == '.'))).reverse
  if tail.length = cs.length then ""
  else if cs.length - tail.length - 1 = 0 then ""
  else if tail.isEmpty then ""
  else String.mk ('.' :: tail)

/-- Python `Path.with_suffix`: strip the current suffix, append the new one. -/
def withSuffix (name suf : String) : String :=
  String.mk (name.toList.take (name.toList.length - (pathSuffix name).toList.length)) ++ suf

/-- `Path.glob("*.*")`: names containing a dot (pathlib's glob matches
hidden files too, so a leading dot is no exclusion). -/
def globStarFiles (files : List String) : List String :=
  files.filter (fun f => pyIn "." f)

/-- Add a path to the filesystem model unless it is already present (the
shape of both `mkdir(exist_ok=True)` and the guarded `symlink_to`). -/
def insertFile (fs : List String) (f : String) : List String :=
  if f ∈ fs then fs else fs ++ [f]

/-- Remove a path if present (the shape of `if p.exists(): p.unlink()`). -/
def eraseIfPresent (fs : List String) (f : String) : List String :=
  if f ∈ fs then fs.erase f else fs

/-- `mkdir(parents=True, exist_ok=True)` on the path-set filesystem model. -/
def mkdirP (fs : List String) (d : String) : List String := insertFile fs d

/-- The symlink loop of `run_sequenza`: for each candidate source file with a
`.cram`/`.crai` suffix, create `dest/name` unless it already exists. -/
def linkFiles (dest : String) : List String → List String → List String
  | [], fs => fs
  | f :: rest, fs =>
    if pathSuffix f = ".cram" ∨ pathSuffix f = ".crai" then
      linkFiles dest rest (insertFile fs (dest ++ "/" ++ f))
    else linkFiles dest rest fs

/-- Workspace-preparation phase of `run_sequenza` (run_all_sequenza.py, lines
90–115): create the two per-patient working directories, then link the
tumour and normal input files. -/
def prepare_workspace (outputRoot pid : String)
    (tumorFiles normalFiles fs : List String) : List String :=
  linkFiles (outputRoot ++ "/" ++ pid ++ "/preprocessing/recalibrated/Normal")
    (globStarFiles normalFiles)
    (linkFiles (outputRoot ++ "/" ++ pid ++ "/preprocessing/recalibrated/Tumour")
      (globStarFiles tumorFiles)
      (mkdirP
        (mkdirP fs (outputRoot ++ "/" ++ pid ++ "/preprocessing/recalibrated/Tumour"))
        (outputRoot ++ "/" ++ pid ++ "/preprocessing/recalibrated/Normal")))

/-! ### run_all_sequenza.py — batch driver (`__main__`) -/

/-- The batch loop: run every pair in order, count successes, and derive the
process exit code (`0` iff every pair succeeded).  The per-pair runner is an
oracle `run pid tumor normal`. -/
def run_batch (pairs : List (String × String × String))
    (run : String → String → String → Bool) :
    List (String × Bool) × Nat × Nat :=
  let results := pairs.map (fun p => (p.1, run p.1 p.2.1 p.2.2))
  let success_count := results.countP (fun r => r.2)
  (results, success_count, if success_count = pairs.length then 0 else 1)

/-! ### sequenza_preprocess.py — per-sample pipeline driver

External commands are argv lists.  `SeqEnv.ok` is the external world's verdict
on a command (exit status 0 or not); a successful command writes its declared
output path, a failed one raises `CalledProcessError` through `run_cmd`'s
`check=True`, landing in `process_sample`'s `except` block. -/

/-- `samtools view -b -@ threads -T fasta -o outBam inCram`. -/
def samtools_view_cmd (threads : Nat) (fasta outBam inCram : String) : List String :=
  ["samtools", "view", "-b", "-@", toString threads, "-T", fasta, "-o", outBam, inCram]

/-- `sequenza-utils bam2seqz -n normalBam -t tumorBam --fasta fasta -gc gc -o out`. -/
def bam2seqz_cmd (normalBam tumorBam fasta gc out : String) : List String :=
  ["sequenza-utils", "bam2seqz", "-n", normalBam, "-t", tumorBam,
   "--fasta", fasta, "-gc", gc, "-o", out]

/-- `sequenza-utils seqz_binning --seqz seqzFile -w w -o out`. -/
def seqz_binning_cmd (seqzFile : String) (w : Nat) (out : String) : List String :=
  ["sequenza-utils", "seqz_binning", "--seqz", seqzFile, "-w", toString w, "-o", out]

/-- External world seen by one `process_sample` run: the CRAM file found by
each `next(dir.glob("*.cram"), None)`, and the exit verdict per command. -/
structure SeqEnv where
  tumorCram : Option String
  normalCram : Option String
  ok : List String → Bool

/-- The cleanup loop `for bam_file in [tumor_bam, normal_bam]: if exists: unlink`,
shared by the success path and the `except` handler. -/
def cleanup_bams (tumorBam normalBam : String) (fs : List String) : List String :=
  eraseIfPresent (eraseIfPresent fs tumorBam) normalBam

/-- Model of `process_sample` (sequenza_preprocess.py).  Returns the boolean
result, the trace of external commands invoked (in order), and the final
filesystem.  Mirrors the source's control flow: each `run_cmd` with
`check=True` aborts to the exception handler (which deletes any existing
intermediate BAMs and returns `False`) as soon as a command fails. -/
def process_sample (env : SeqEnv) (fasta gc : String) (binWidth threads : Nat)
    (fs0 : List String) : Bool × List (List String) × List String :=
  match env.tumorCram with
  | none => (false, [], fs0)
  | some tumorCramFile =>
    match env.normalCram with
    | none => (false, [], fs0)
    | some normalCramFile =>
      let tumorBam := withSuffix tumorCramFile ".bam"
      let normalBam := withSuffix normalCramFile ".bam"
      let c1 := samtools_view_cmd threads fasta normalBam normalCramFile
      let c2 := samtools_view_cmd threads fasta tumorBam tumorCramFile
      let c3 := bam2seqz_cmd normalBam tumorBam fasta gc "sequenza_files/out.seqz.gz"
      let c4 := seqz_binning_cmd "sequenza_files/out.seqz.gz" binWidth
        "sequenza_files/binned.out.seqz.gz"
      if env.ok c1 then
        let fs1 := insertFile fs0 normalBam
        if env.ok c2 then
          let fs2 := insertFile fs1 tumorBam
          if env.ok c3 then
            let fs3 := insertFile fs2 "sequenza_files/out.seqz.gz"
            if env.ok c4 then
              let fs4 := insertFile fs3 "sequenza_files/binned.out.seqz.gz"
              (true, [c1, c2, c3, c4], cleanup_bams tumorBam normalBam fs4)
            else
              (false, [c1, c2, c3, c4], cleanup_bams tumorBam normalBam fs3)
          else
            (false, [c1, c2, c3], cleanup_bams tumorBam normalBam fs2)
        else
          (false, [c1, c2], cleanup_bams tumorBam normalBam fs1)
      else
        (false, [c1], cleanup_bams tumorBam normalBam fs0)

/-! ## Helper lemmas -/

lemma count_tmb_eq_countP (effects : List String) :
    ∀ lines : List String,
    (∀ l ∈ lines, pyStartsWith l "#" = false →
      8 ≤ (pySplit (pyStrip l) "\t").length) →
    count_tmb_mutations effects lines = some (lines.countP (tmbQualifies effects))
  | [], _ => by simp [count_tmb_mutations]
  | line :: rest, h => by
    have hrest := count_tmb_eq_countP effects rest
      (fun l hl => h l (List.mem_cons_of_mem _ hl))
    by_cases hH : pyStartsWith line "#" = true
    · simp [count_tmb_mutations, hH, hrest, List.countP_cons, tmbQualifies]
    · have hH' : pyStartsWith line "#" = false := by simpa using hH
      have hlen := h line (List.mem_cons_self _ _) hH'
      obtain ⟨c6, hc6⟩ : ∃ a, (pySplit (pyStrip line) "\t").get? 6 = some a := by
        cases hg : (pySplit (pyStrip line) "\t").get? 6 with
        | none => exact absurd (List.get?_eq_none.mp hg) (by omega)
        | some a => exact ⟨a, rfl⟩
      obtain ⟨c7, hc7⟩ : ∃ a, (pySplit (pyStrip line) "\t").get? 7 = some a := by
        cases hg : (pySplit (pyStrip line) "\t").get? 7 with
        | none => exact absurd (List.get?_eq_none.mp hg) (by omega)
        | some a => exact ⟨a, rfl⟩
      by_cases hp : c6 = "PASS"
      · subst hp
        simp only [count_tmb_mutations, hH', Bool.false_eq_true, if_false, hc6,
          hc7, ne_eq, not_true_eq_false, if_neg, hrest, List.countP_cons,
          tmbQualifies, Bool.not_eq_true']
        cases hhit : csqHit effects c7 <;> simp [hhit]
      · simp only [count_tmb_mutations, hH', Bool.false_eq_true, if_false, hc6,
          hc7, ne_eq, hp, not_false_iff, if_pos, hrest, List.countP_cons,
          tmbQualifies, Bool.not_eq_true']
        have : (some c6 == some "PASS") = false := by
          simpa using hp
        simp [this]

lemma total_bases_eq_spec :
    ∀ lines : List String,
    (∀ l ∈ lines, region_line_ok l = true → (parse_region_line l).isSome) →
    total_bases lines = some (spec_region_sum lines)
  | [], _ => by simp [total_bases, spec_region_sum]
  | line :: rest, h => by
    have hrest := total_bases_eq_spec rest (fun l hl => h l (List.mem_cons_of_mem _ hl))
    by_cases hok : region_line_ok line = true
    · obtain ⟨se, hse⟩ : ∃ p, parse_region_line line = some p := by
        cases hg : parse_region_line line with
        | none =>
          have := h line (List.mem_cons_self _ _) hok
          rw [hg] at this; exact absurd this (by simp)
        | some p => exact ⟨p, rfl⟩
      simp [total_bases, hok, hse, hrest, spec_region_sum, List.filter_cons, add_comm]
    · have hok' : region_line_ok line = false := by simpa using hok
      simp [total_bases, hok', hrest, spec_region_sum, List.filter_cons]

lemma insertFile_mem_self (fs : List String) (f : String) : f ∈ insertFile fs f := by
  unfold insertFile
  split
  · assumption
  · exact List.mem_append_right _ (List.mem_singleton_self f)

lemma insertFile_mono (fs : List String) (f x : String) (hx : x ∈ fs) :
    x ∈ insertFile fs f := by
  unfold insertFile
  split
  · exact hx
  · exact List.mem_append_left _ hx

lemma insertFile_of_mem (fs : List String) (f : String) (hf : f ∈ fs) :
    insertFile fs f = fs := by
  unfold insertFile
  rw [if_pos hf]

lemma insertFile_nodup (fs : List String) (f : String) (h : fs.Nodup) :
    (insertFile fs f).Nodup := by
  unfold insertFile
  split
  · exact h
  · next hnot =>
    rw [List.nodup_append]
    exact ⟨h, List.nodup_singleton f,
      fun x hx hx' => by rw [List.mem_singleton] at hx'; subst hx'; exact hnot hx⟩

lemma eraseIfPresent_nodup (fs : List String) (f : String) (h : fs.Nodup) :
    (eraseIfPresent fs f).Nodup := by
  unfold eraseIfPresent
  split
  · exact h.erase f
  · exact h

lemma eraseIfPresent_not_mem_self (fs : List String) (f : String) (h : fs.Nodup) :
    f ∉ eraseIfPresent fs f := by
  unfold eraseIfPresent
  split
  · intro hm
    exact ((h.mem_erase_iff).mp hm).1 rfl
  · assumption

lemma eraseIfPresent_not_mem (fs : List String) (f x : String) (hx : x ∉ fs) :
    x ∉ eraseIfPresent fs f := by
  unfold eraseIfPresent
  split
  · exact fun hm => hx (List.mem_of_mem_erase hm)
  · exact hx

lemma linkFiles_mono (dest : String) :
    ∀ (src fs : List String) (x : String), x ∈ fs → x ∈ linkFiles dest src fs
  | [], _, _, hx => hx
  | f :: rest, fs, x, hx => by
    unfold linkFiles
    split
    · exact linkFiles_mono dest rest _ x (insertFile_mono _ _ _ hx)
    · exact linkFiles_mono dest rest fs x hx

lemma linkFiles_target_mem (dest : String) :
    ∀ (src fs : List String) (f : String), f ∈ src →
      (pathSuffix f = ".cram" ∨ pathSuffix f = ".crai") →
      dest ++ "/" ++ f ∈ linkFiles dest src fs
  | [], _, _, hf, _ => absurd hf (List.not_mem_nil _)
  | g :: rest, fs, f, hf, hsuf => by
    rcases List.mem_cons.mp hf with heq | hmem
    · subst heq
      unfold linkFiles
      rw [if_pos hsuf]
      exact linkFiles_mono dest rest _ _ (insertFile_mem_self _ _)
    · unfold linkFiles
      split
      · exact linkFiles_target_mem dest rest _ f hmem hsuf
      · exact linkFiles_target_mem dest rest fs f hmem hsuf

lemma linkFiles_id (dest : String) :
    ∀ (src fs : List String),
      (∀ f ∈ src, (pathSuffix f = ".cram" ∨ pathSuffix f = ".crai") →
        dest ++ "/" ++ f ∈ fs) →
      linkFiles dest src fs = fs
  | [], _, _ => rfl
  | f :: rest, fs, h => by
    unfold linkFiles
    by_cases hsuf : pathSuffix f = ".cram" ∨ pathSuffix f = ".crai"
    · rw [if_pos hsuf, insertFile_of_mem _ _ (h f (List.mem_cons_self _ _) hsuf)]
      exact linkFiles_id dest rest fs (fun g hg => h g (List.mem_cons_of_mem _ hg))
    · rw [if_neg hsuf]
      exact linkFiles_id dest rest fs (fun g hg => h g (List.mem_cons_of_mem _ hg))

lemma linkFiles_nodup (dest : String) :
    ∀ (src fs : List String), fs.Nodup → (linkFiles dest src fs).Nodup
  | [], _, h => h
  | f :: rest, fs, h => by
    unfold linkFiles
    split
    · exact linkFiles_nodup dest rest _ (insertFile_nodup _ _ h)
    · exact linkFiles_nodup dest rest fs h

lemma prepare_workspace_fixed (outputRoot pid : String)
    (tumorFiles normalFiles g : List String)
    (htD : outputRoot ++ "/" ++ pid ++ "/preprocessing/recalibrated/Tumour" ∈ g)
    (hnD : outputRoot ++ "/" ++ pid ++ "/preprocessing/recalibrated/Normal" ∈ g)
    (htT : ∀ f ∈ globStarFiles tumorFiles,
      (pathSuffix f = ".cram" ∨ pathSuffix f = ".crai") →
      outputRoot ++ "/" ++ pid ++ "/preprocessing/recalibrated/Tumour" ++ "/" ++ f ∈ g)
    (hnT : ∀ f ∈ globStarFiles normalFiles,
      (pathSuffix f = ".cram" ∨ pathSuffix f = ".crai") →
      outputRoot ++ "/" ++ pid ++ "/preprocessing/recalibrated/Normal" ++ "/" ++ f ∈ g) :
    prepare_workspace outputRoot pid tumorFiles normalFiles g = g := by
  unfold prepare_workspace mkdirP
  rw [insertFile_of_mem _ _ htD, insertFile_of_mem _ _ hnD,
    linkFiles_id _ _ _ htT]
  exact linkFiles_id _ _ _ hnT

lemma cleanup_bams_not_mem (tB nB : String) (fs : List String) (h : fs.Nodup) :
    tB ∉ cleanup_bams tB nB fs ∧ nB ∉ cleanup_bams tB nB fs := by
  unfold cleanup_bams
  refine ⟨eraseIfPresent_not_mem _ _ _ (eraseIfPresent_not_mem_self fs tB h), ?_⟩
  exact eraseIfPresent_not_mem_self _ nB (eraseIfPresent_nodup fs tB h)

lemma seqz_binning_ne_samtools (s : String) (w : Nat) (o : String) (threads : Nat)
    (fasta outBam inCram : String) :
    seqz_binning_cmd s w o ≠ samtools_view_cmd threads fasta outBam inCram := by
  intro h
  have h0 := congrArg (fun l => l.get? 0) h
  simp [seqz_binning_cmd, samtools_view_cmd] at h0

lemma seqz_binning_ne_bam2seqz (s : String) (w : Nat) (o nb tb fasta gc out : String) :
    seqz_binning_cmd s w o ≠ bam2seqz_cmd nb tb fasta gc out := by
  intro h
  have h1 := congrArg (fun l => l.get? 1) h
  simp [seqz_binning_cmd, bam2seqz_cmd] at h1

lemma bam2seqz_ne_samtools (nb tb fasta gc out : String) (threads : Nat)
    (f2 ob ic : String) :
    bam2seqz_cmd nb tb fasta gc out ≠ samtools_view_cmd threads f2 ob ic := by
  intro h
  have h0 := congrArg (fun l => l.get? 0) h
  simp [bam2seqz_cmd, samtools_view_cmd] at h0

lemma samtools_view_inj_in (threads : Nat) (fasta ob ic ob2 ic2 : String)
    (h : samtools_view_cmd threads fasta ob ic = samtools_view_cmd threads fasta ob2 ic2) :
    ic = ic2 := by
  have h9 := congrArg (fun l => l.get? 9) h
  simpa [samtools_view_cmd] using h9

lemma dictLookup_dictInsert_self (d : List (String × String)) (k v : String) :
    dictLookup k (dictInsert d k v) = some v := by
  induction d with
  | nil => simp [dictInsert, dictLookup]
  | cons kv rest ih =>
    obtain ⟨k', v'⟩ := kv
    by_cases h : k' = k
    · subst h
      simp [dictInsert, dictLookup]
    · simp [dictInsert, dictLookup, h, ih]

lemma dictLookup_dictInsert_of_ne (d : List (String × String)) (k v q : String)
    (h : k ≠ q) :
    dictLookup q (dictInsert d k v) = dictLookup q d := by
  induction d with
  | nil => simp [dictInsert, dictLookup, h]
  | cons kv rest ih =>
    obtain ⟨k', v'⟩ := kv
    by_cases hk : k' = k
    · subst hk
      simp [dictInsert, dictLookup, h]
    · by_cases hq : k' = q
      · subst hq
        simp [dictInsert, dictLookup, hk]
      · simp [dictInsert, dictLookup, hk, hq, ih]

lemma dictInsert_keys (d : List (String × String)) (k v : String) :
    (dictInsert d k v).map Prod.fst
      = if k ∈ d.map Prod.fst then d.map Prod.fst else d.map Prod.fst ++ [k] := by
  induction d with
  | nil => simp [dictInsert]
  | cons kv rest ih =>
    obtain ⟨k', v'⟩ := kv
    by_cases h : k' = k
    · subst h
      simp [dictInsert]
    · have hne : ¬k = k' := fun hh => h hh.symm
      by_cases hm : k ∈ rest.map Prod.fst
      · simp [dictInsert, h, ih, hm, hne]
      · simp [dictInsert, h, ih, hm, hne]

lemma dictInsert_keys_nodup (d : List (String × String)) (k v : String)
    (h : (d.map Prod.fst).Nodup) :
    ((dictInsert d k v).map Prod.fst).Nodup := by
  rw [dictInsert_keys]
  split
  · exact h
  · next hnot =>
    rw [List.nodup_append]
    exact ⟨h, List.nodup_singleton k,
      fun x hx hx' => by rw [List.mem_singleton] at hx'; subst hx'; exact hnot hx⟩

lemma dictInsert_mem (d : List (String × String)) (k v : String)
    (kv2 : String × String) (h : kv2 ∈ dictInsert d k v) :
    kv2 ∈ d ∨ kv2 = (k, v) := by
  induction d with
  | nil =>
    right
    simpa [dictInsert] using h
  | cons kv rest ih =>
    obtain ⟨k', v'⟩ := kv
    by_cases hk : k' = k
    · subst hk
      rw [dictInsert, if_pos rfl] at h
      rcases List.mem_cons.mp h with h | h
      · exact Or.inr h
      · exact Or.inl (List.mem_cons_of_mem _ h)
    · rw [dictInsert, if_neg hk] at h
      rcases List.mem_cons.mp h with h | h
      · exact Or.inl (h ▸ List.mem_cons_self _ _)
      · rcases ih h with h | h
        · exact Or.inl (List.mem_cons_of_mem _ h)
        · exact Or.inr h

lemma filter_key_eq_nil (d : List (String × String)) (k : String)
    (h : k ∉ d.map Prod.fst) :
    d.filter (fun e => decide (e.1 = k)) = [] := by
  rw [List.filter_eq_nil_iff]
  intro e he
  simp only [decide_eq_true_eq]
  intro hk
  exact h (List.mem_map.mpr ⟨e, he, hk⟩)

lemma dictInsert_filter_key_self (d : List (String × String)) (k v : String)
    (h : (d.map Prod.fst).Nodup) :
    (dictInsert d k v).filter (fun e => decide (e.1 = k)) = [(k, v)] := by
  induction d with
  | nil => simp [dictInsert]
  | cons kv rest ih =>
    obtain ⟨k', v'⟩ := kv
    by_cases hk : k' = k
    · subst hk
      rw [dictInsert, if_pos rfl]
      have hnot : k' ∉ rest.map Prod.fst := by
        have := h
        simp only [List.map_cons, List.nodup_cons] at this
        exact this.1
      simp [List.filter_cons, filter_key_eq_nil rest k' hnot]
    · rw [dictInsert, if_neg hk]
      have htail : (rest.map Prod.fst).Nodup := by
        simp only [List.map_cons, List.nodup_cons] at h
        exact h.2
      simp [List.filter_cons, hk, ih htail]

lemma dictInsert_filter_key_ne (d : List (String × String)) (k v q : String)
    (hne : k ≠ q) :
    (dictInsert d k v).filter (fun e => decide (e.1 = q))
      = d.filter (fun e => decide (e.1 = q)) := by
  induction d with
  | nil => simp [dictInsert, hne]
  | cons kv rest ih =>
    obtain ⟨k', v'⟩ := kv
    by_cases hk : k' = k
    · subst hk
      simp [dictInsert, List.filter_cons, hne]
    · by_cases hq : k' = q
      · subst hq
        simp [dictInsert, hk, List.filter_cons, ih]
      · simp [dictInsert, hk, List.filter_cons, hq, ih]

lemma dictLookup_mem (d : List (String × String)) (k v : String)
    (h : dictLookup k d = some v) : (k, v) ∈ d := by
  induction d with
  | nil => exact absurd h (by simp [dictLookup])
  | cons kv rest ih =>
    obtain ⟨k', v'⟩ := kv
    by_cases hk : k' = k
    · subst hk
      rw [dictLookup, if_pos rfl] at h
      rw [Option.some.injEq] at h
      subst h
      exact List.mem_cons_self _ _
    · rw [dictLookup, if_neg hk] at h
      exact List.mem_cons_of_mem _ (ih h)

lemma classifyStep_normal (nm tm : List (String × String)) (e : String × Bool)
    (hd : e.2 = true) (hn : pyIn "Normal" e.1 = true) :
    classifyStep (nm, tm) e = (dictInsert nm (stripNormalTag e.1) e.1, tm) := by
  simp [classifyStep, hd, hn]

lemma classifyStep_tumour (nm tm : List (String × String)) (e : String × Bool)
    (hd : e.2 = true) (hn : pyIn "Normal" e.1 = false)
    (ht : (pyIn "Tumour" e.1 || pyIn "Tumor" e.1) = true) :
    classifyStep (nm, tm) e = (nm, dictInsert tm (stripTumourTag e.1) e.1) := by
  simp [classifyStep, hd, hn, ht]

lemma classifyStep_skip_tag (nm tm : List (String × String)) (e : String × Bool)
    (hn : pyIn "Normal" e.1 = false)
    (ht : (pyIn "Tumour" e.1 || pyIn "Tumor" e.1) = false) :
    classifyStep (nm, tm) e = (nm, tm) := by
  cases hd : e.2 <;> simp [classifyStep, hd, hn, ht]

lemma classifyStep_skip_dir (nm tm : List (String × String)) (e : String × Bool)
    (hd : e.2 = false) :
    classifyStep (nm, tm) e = (nm, tm) := by
  simp [classifyStep, hd]

lemma derivedPid_normal (e : String × Bool) (hd : e.2 = true)
    (hn : pyIn "Normal" e.1 = true) :
    derivedPid e = some (stripNormalTag e.1) := by
  simp [derivedPid, hd, hn]

lemma derivedPid_tumour (e : String × Bool) (hd : e.2 = true)
    (hn : pyIn "Normal" e.1 = false)
    (ht : (pyIn "Tumour" e.1 || pyIn "Tumor" e.1) = true) :
    derivedPid e = some (stripTumourTag e.1) := by
  simp [derivedPid, hd, hn, ht]

lemma classify_pair_invariant (id nName tName : String)
    (hN1 : pyIn "Normal" nName = true)
    (hsn : stripNormalTag nName = id)
    (hTn : pyIn "Normal" tName = false)
    (hTt : (pyIn "Tumour" tName || pyIn "Tumor" tName) = true)
    (hst : stripTumourTag tName = id) :
    ∀ (dirs : List (String × Bool)) (nm tm : List (String × String)),
    (∀ e ∈ dirs, e = (nName, true) ∨ e = (tName, true) ∨ derivedPid e ≠ some id) →
    (tm.map Prod.fst).Nodup →
    (dictLookup id (dirs.foldl classifyStep (nm, tm)).1
        = if (nName, true) ∈ dirs then some nName else dictLookup id nm)
    ∧ ((dirs.foldl classifyStep (nm, tm)).2.filter (fun e => decide (e.1 = id))
        = if (tName, true) ∈ dirs then [(id, tName)]
          else tm.filter (fun e => decide (e.1 = id)))
    ∧ (((dirs.foldl classifyStep (nm, tm)).2.map Prod.fst).Nodup) := by
  have hnefst : nName ≠ tName := by
    intro h
    rw [h, hTn] at hN1
    exact Bool.false_ne_true hN1
  intro dirs
  induction dirs with
  | nil =>
    intro nm tm _ hnd
    simp [List.foldl_nil, hnd]
  | cons e rest ih =>
    intro nm tm hall hnd
    have hallr : ∀ x ∈ rest, x = (nName, true) ∨ x = (tName, true)
        ∨ derivedPid x ≠ some id :=
      fun x hx => hall x (List.mem_cons_of_mem _ hx)
    rw [List.foldl_cons]
    rcases hall e (List.mem_cons_self _ _) with he | he | he
    · -- the normal-sample folder itself
      subst he
      rw [classifyStep_normal nm tm _ rfl hN1, hsn]
      have h3 := ih (dictInsert nm id nName) tm hallr hnd
      refine ⟨?_, ?_, h3.2.2⟩
      · rw [if_pos (List.mem_cons_self _ _), h3.1]
        split
        · rfl
        · exact dictLookup_dictInsert_self nm id nName
      · have hmem : ((tName, true) ∈ (nName, true) :: rest) ↔ ((tName, true) ∈ rest) := by
          simp [List.mem_cons, hnefst.symm]
        rw [h3.2.1]
        by_cases hmr : (tName, true) ∈ rest
        · rw [if_pos hmr, if_pos (hmem.mpr hmr)]
        · rw [if_neg hmr, if_neg (fun hc => hmr (hmem.mp hc))]
    · -- the tumour-sample folder itself
      subst he
      rw [classifyStep_tumour nm tm _ rfl hTn hTt, hst]
      have hnd2 : ((dictInsert tm id tName).map Prod.fst).Nodup :=
        dictInsert_keys_nodup tm id tName hnd
      have h3 := ih nm (dictInsert tm id tName) hallr hnd2
      refine ⟨?_, ?_, h3.2.2⟩
      · have hmem : ((nName, true) ∈ (tName, true) :: rest) ↔ ((nName, true) ∈ rest) := by
          simp [List.mem_cons, hnefst]
        rw [h3.1]
        by_cases hmr : (nName, true) ∈ rest
        · rw [if_pos hmr, if_pos (hmem.mpr hmr)]
        · rw [if_neg hmr, if_neg (fun hc => hmr (hmem.mp hc))]
      · rw [if_pos (List.mem_cons_self _ _), h3.2.1]
        split
        · rfl
        · exact dictInsert_filter_key_self tm id tName hnd
    · -- any other entry: it never touches patient id `id`
      have hne1 : e ≠ (nName, true) := by
        intro h
        subst h
        exact he (by rw [derivedPid_normal _ rfl hN1, hsn])
      have hne2 : e ≠ (tName, true) := by
        intro h
        subst h
        exact he (by rw [derivedPid_tumour _ rfl hTn hTt, hst])
      have hmemn : ((nName, true) ∈ e :: rest) ↔ ((nName, true) ∈ rest) := by
        simp [List.mem_cons, Ne.symm hne1]
      have hmemt : ((tName, true) ∈ e :: rest) ↔ ((tName, true) ∈ rest) := by
        simp [List.mem_cons, Ne.symm hne2]
      by_cases hd : e.2 = true
      · by_cases hn : pyIn "Normal" e.1 = true
        · -- inserts into normals under a key different from id
          have hkey : stripNormalTag e.1 ≠ id := by
            intro hk
            exact he (by rw [derivedPid_normal _ hd hn, hk])
          rw [classifyStep_normal nm tm _ hd hn]
          have h3 := ih (dictInsert nm (stripNormalTag e.1) e.1) tm hallr hnd
          refine ⟨?_, ?_, h3.2.2⟩
          · rw [h3.1]
            by_cases hmr : (nName, true) ∈ rest
            · rw [if_pos hmr, if_pos (hmemn.mpr hmr)]
            · rw [if_neg hmr, if_neg (fun hc => hmr (hmemn.mp hc)),
                dictLookup_dictInsert_of_ne nm _ _ _ hkey]
          · rw [h3.2.1]
            by_cases hmr : (tName, true) ∈ rest
            · rw [if_pos hmr, if_pos (hmemt.mpr hmr)]
            · rw [if_neg hmr, if_neg (fun hc => hmr (hmemt.mp hc))]
        · have hn' : pyIn "Normal" e.1 = false := by simpa using hn
          by_cases ht : (pyIn "Tumour" e.1 || pyIn "Tumor" e.1) = true
          · -- inserts into tumours under a key different from id
            have hkey : stripTumourTag e.1 ≠ id := by
              intro hk
              exact he (by rw [derivedPid_tumour _ hd hn' ht, hk])
            rw [classifyStep_tumour nm tm _ hd hn' ht]
            have hnd2 : ((dictInsert tm (stripTumourTag e.1) e.1).map Prod.fst).Nodup :=
              dictInsert_keys_nodup tm _ _ hnd
            have h3 := ih nm (dictInsert tm (stripTumourTag e.1) e.1) hallr hnd2
            refine ⟨?_, ?_, h3.2.2⟩
            · rw [h3.1]
              by_cases hmr : (nName, true) ∈ rest
              · rw [if_pos hmr, if_pos (hmemn.mpr hmr)]
              · rw [if_neg hmr, if_neg (fun hc => hmr (hmemn.mp hc))]
            · rw [h3.2.1]
              by_cases hmr : (tName, true) ∈ rest
              · rw [if_pos hmr, if_pos (hmemt.mpr hmr)]
              · rw [if_neg hmr, if_neg (fun hc => hmr (hmemt.mp hc)),
                  dictInsert_filter_key_ne tm _ _ _ hkey]
          · have ht' : (pyIn "Tumour" e.1 || pyIn "Tumor" e.1) = false := by simpa using ht
            rw [classifyStep_skip_tag nm tm e hn' ht']
            have h3 := ih nm tm hallr hnd
            refine ⟨?_, ?_, h3.2.2⟩
            · rw [h3.1]
              by_cases hmr : (nName, true) ∈ rest
              · rw [if_pos hmr, if_pos (hmemn.mpr hmr)]
              · rw [if_neg hmr, if_neg (fun hc => hmr (hmemn.mp hc))]
            · rw [h3.2.1]
              by_cases hmr : (tName, true) ∈ rest
              · rw [if_pos hmr, if_pos (hmemt.mpr hmr)]
              · rw [if_neg hmr, if_neg (fun hc => hmr (hmemt.mp hc))]
      · have hd' : e.2 = false := by simpa using hd
        rw [classifyStep_skip_dir nm tm e hd']
        have h3 := ih nm tm hallr hnd
        refine ⟨?_, ?_, h3.2.2⟩
        · rw [h3.1]
          by_cases hmr : (nName, true) ∈ rest
          · rw [if_pos hmr, if_pos (hmemn.mpr hmr)]
          · rw [if_neg hmr, if_neg (fun hc => hmr (hmemn.mp hc))]
        · rw [h3.2.1]
          by_cases hmr : (tName, true) ∈ rest
          · rw [if_pos hmr, if_pos (hmemt.mpr hmr)]
          · rw [if_neg hmr, if_neg (fun hc => hmr (hmemt.mp hc))]

lemma pairs_filter_key (nm : List (String × String)) (id : String) :
    ∀ tm : List (String × String),
      ((tm.filterMap
          (fun e => (dictLookup e.1 nm).map (fun n => (e.1, e.2, n)))).filter
        (fun p => decide (p.1 = id)))
      = (tm.filter (fun e => decide (e.1 = id))).filterMap
          (fun e => (dictLookup e.1 nm).map (fun n => (e.1, e.2, n)))
  | [] => rfl
  | e :: rest => by
    by_cases hk : e.1 = id
    · cases hl : dictLookup e.1 nm with
      | none =>
        rw [hk] at hl
        simp [List.filterMap_cons, List.filter_cons, hk, hl,
          pairs_filter_key nm id rest]
      | some n =>
        rw [hk] at hl
        simp [List.filterMap_cons, List.filter_cons, hk, hl,
          pairs_filter_key nm id rest]
    · cases hl : dictLookup e.1 nm with
      | none =>
        simp [List.filterMap_cons, List.filter_cons, hk, hl,
          pairs_filter_key nm id rest]
      | some n =>
        simp [List.filterMap_cons, List.filter_cons, hk, hl,
          pairs_filter_key nm id rest]

lemma tumour_values_inv (P : String → Prop) :
    ∀ (dirs : List (String × Bool)) (nm tm : List (String × String)),
    (∀ kv ∈ tm, P kv.2) →
    (∀ e ∈ dirs, e.2 = true → pyIn "Normal" e.1 = false →
      (pyIn "Tumour" e.1 || pyIn "Tumor" e.1) = true → P e.1) →
    ∀ kv ∈ (dirs.foldl classifyStep (nm, tm)).2, P kv.2
  | [], _, _, htm, _ => by simpa using htm
  | e :: rest, nm, tm, htm, hdirs => by
    rw [List.foldl_cons]
    have hdr : ∀ x ∈ rest, x.2 = true → pyIn "Normal" x.1 = false →
        (pyIn "Tumour" x.1 || pyIn "Tumor" x.1) = true → P x.1 :=
      fun x hx => hdirs x (List.mem_cons_of_mem _ hx)
    by_cases hd : e.2 = true
    · by_cases hn : pyIn "Normal" e.1 = true
      · rw [classifyStep_normal nm tm e hd hn]
        exact tumour_values_inv P rest _ tm htm hdr
      · have hn' : pyIn "Normal" e.1 = false := by simpa using hn
        by_cases ht : (pyIn "Tumour" e.1 || pyIn "Tumor" e.1) = true
        · rw [classifyStep_tumour nm tm e hd hn' ht]
          refine tumour_values_inv P rest nm _ ?_ hdr
          intro kv hkv
          rcases dictInsert_mem tm _ _ kv hkv with h | h
          · exact htm kv h
          · rw [h]
            exact hdirs e (List.mem_cons_self _ _) hd hn' ht
        · have ht' : (pyIn "Tumour" e.1 || pyIn "Tumor" e.1) = false := by simpa using ht
          rw [classifyStep_skip_tag nm tm e hn' ht']
          exact tumour_values_inv P rest nm tm htm hdr
    · have hd' : e.2 = false := by simpa using hd
      rw [classifyStep_skip_dir nm tm e hd']
      exact tumour_values_inv P rest nm tm htm hdr

lemma tumour_keys_cover :
    ∀ (dirs : List (String × Bool)) (nm tm : List (String × String)) (k : String),
    k ∈ ((dirs.foldl classifyStep (nm, tm)).2.map Prod.fst) →
    k ∈ tm.map Prod.fst ∨ ∃ e ∈ dirs, tumourDerived e = some k
  | [], _, _, _, hk => Or.inl hk
  | e :: rest, nm, tm, k, hk => by
    rw [List.foldl_cons] at hk
    by_cases hd : e.2 = true
    · by_cases hn : pyIn "Normal" e.1 = true
      · rw [classifyStep_normal nm tm e hd hn] at hk
        rcases tumour_keys_cover rest _ tm k hk with h | ⟨x, hx, hdx⟩
        · exact Or.inl h
        · exact Or.inr ⟨x, List.mem_cons_of_mem _ hx, hdx⟩
      · have hn' : pyIn "Normal" e.1 = false := by simpa using hn
        by_cases ht : (pyIn "Tumour" e.1 || pyIn "Tumor" e.1) = true
        · rw [classifyStep_tumour nm tm e hd hn' ht] at hk
          rcases tumour_keys_cover rest nm _ k hk with h | ⟨x, hx, hdx⟩
          · rw [dictInsert_keys] at h
            by_cases hin : stripTumourTag e.1 ∈ tm.map Prod.fst
            · rw [if_pos hin] at h
              exact Or.inl h
            · rw [if_neg hin] at h
              rcases List.mem_append.mp h with h | h
              · exact Or.inl h
              · rw [List.mem_singleton] at h
                subst h
                refine Or.inr ⟨e, List.mem_cons_self _ _, ?_⟩
                simp [tumourDerived, hd, hn', ht]
          · exact Or.inr ⟨x, List.mem_cons_of_mem _ hx, hdx⟩
        · have ht' : (pyIn "Tumour" e.1 || pyIn "Tumor" e.1) = false := by simpa using ht
          rw [classifyStep_skip_tag nm tm e hn' ht'] at hk
          rcases tumour_keys_cover rest nm tm k hk with h | ⟨x, hx, hdx⟩
          · exact Or.inl h
          · exact Or.inr ⟨x, List.mem_cons_of_mem _ hx, hdx⟩
    · have hd' : e.2 = false := by simpa using hd
      rw [classifyStep_skip_dir nm tm e hd'] at hk
      rcases tumour_keys_cover rest nm tm k hk with h | ⟨x, hx, hdx⟩
      · exact Or.inl h
      · exact Or.inr ⟨x, List.mem_cons_of_mem _ hx, hdx⟩

lemma classify_keys_nodup :
    ∀ (dirs : List (String × Bool)) (nm tm : List (String × String)),
    (tm.map Prod.fst).Nodup →
    (((dirs.foldl classifyStep (nm, tm)).2).map Prod.fst).Nodup
  | [], _, _, h => by simpa using h
  | e :: rest, nm, tm, h => by
    rw [List.foldl_cons]
    by_cases hd : e.2 = true
    · by_cases hn : pyIn "Normal" e.1 = true
      · rw [classifyStep_normal nm tm e hd hn]
        exact classify_keys_nodup rest _ tm h
      · have hn' : pyIn "Normal" e.1 = false := by simpa using hn
        by_cases ht : (pyIn "Tumour" e.1 || pyIn "Tumor" e.1) = true
        · rw [classifyStep_tumour nm tm e hd hn' ht]
          exact classify_keys_nodup rest nm _ (dictInsert_keys_nodup tm _ _ h)
        · have ht' : (pyIn "Tumour" e.1 || pyIn "Tumor" e.1) = false := by simpa using ht
          rw [classifyStep_skip_tag nm tm e hn' ht']
          exact classify_keys_nodup rest nm tm h
    · have hd' : e.2 = false := by simpa using hd
      rw [classifyStep_skip_dir nm tm e hd']
      exact classify_keys_nodup rest nm tm h

lemma classify_values :
    ∀ (dirs : List (String × Bool)) (nm tm : List (String × String)),
    (∀ kv ∈ (dirs.foldl classifyStep (nm, tm)).1, kv ∈ nm ∨ (kv.2, true) ∈ dirs)
    ∧ (∀ kv ∈ (dirs.foldl classifyStep (nm, tm)).2, kv ∈ tm ∨ (kv.2, true) ∈ dirs)
  | [], nm, tm => by
    constructor <;> (intro kv hkv; exact Or.inl (by simpa using hkv))
  | e :: rest, nm, tm => by
    have weaken : ∀ {kv : String × String} {m : List (String × String)},
        (kv ∈ m ∨ (kv.2, true) ∈ rest) → kv ∈ m ∨ (kv.2, true) ∈ e :: rest :=
      fun h => h.imp id (List.mem_cons_of_mem _)
    rw [List.foldl_cons]
    by_cases hd : e.2 = true
    · have hself : (e.1, true) ∈ e :: rest := by
        have : e = (e.1, true) := by
          rw [← hd]
        rw [← this]
        exact List.mem_cons_self _ _
      by_cases hn : pyIn "Normal" e.1 = true
      · rw [classifyStep_normal nm tm e hd hn]
        have ih := classify_values rest (dictInsert nm (stripNormalTag e.1) e.1) tm
        constructor
        · intro kv hkv
          rcases ih.1 kv hkv with h | h
          · rcases dictInsert_mem nm _ _ kv h with h | h
            · exact Or.inl h
            · rw [h]
              exact Or.inr hself
          · exact Or.inr (List.mem_cons_of_mem _ h)
        · intro kv hkv
          exact weaken (ih.2 kv hkv)
      · have hn' : pyIn "Normal" e.1 = false := by simpa using hn
        by_cases ht : (pyIn "Tumour" e.1 || pyIn "Tumor" e.1) = true
        · rw [classifyStep_tumour nm tm e hd hn' ht]
          have ih := classify_values rest nm (dictInsert tm (stripTumourTag e.1) e.1)
          constructor
          · intro kv hkv
            exact weaken (ih.1 kv hkv)
          · intro kv hkv
            rcases ih.2 kv hkv with h | h
            · rcases dictInsert_mem tm _ _ kv h with h | h
              · exact Or.inl h
              · rw [h]
                exact Or.inr hself
            · exact Or.inr (List.mem_cons_of_mem _ h)
        · have ht' : (pyIn "Tumour" e.1 || pyIn "Tumor" e.1) = false := by simpa using ht
          rw [classifyStep_skip_tag nm tm e hn' ht']
          have ih := classify_values rest nm tm
          exact ⟨fun kv hkv => weaken (ih.1 kv hkv), fun kv hkv => weaken (ih.2 kv hkv)⟩
    · have hd' : e.2 = false := by simpa using hd
      rw [classifyStep_skip_dir nm tm e hd']
      have ih := classify_values rest nm tm
      exact ⟨fun kv hkv => weaken (ih.1 kv hkv), fun kv hkv => weaken (ih.2 kv hkv)⟩

lemma pairs_map_fst_sublist (nm : List (String × String)) :
    ∀ tm : List (String × String),
    List.Sublist
      ((tm.filterMap (fun e => (dictLookup e.1 nm).map (fun n => (e.1, e.2, n)))).map
        (fun p => p.1))
      (tm.map Prod.fst)
  | [] => List.Sublist.refl _
  | e :: rest => by
    cases hl : dictLookup e.1 nm with
    | none =>
      simp only [List.filterMap_cons, hl, Option.map_none', List.map_cons]
      exact (pairs_map_fst_sublist nm rest).cons _
    | some n =>
      simp only [List.filterMap_cons, hl, Option.map_some', List.map_cons]
      exact (pairs_map_fst_sublist nm rest).cons₂ _

lemma pairs_pid_mem_keys (nm tm : List (String × String)) (p : String × String × String)
    (hp : p ∈ tm.filterMap (fun e => (dictLookup e.1 nm).map (fun n => (e.1, e.2, n)))) :
    p.1 ∈ tm.map Prod.fst := by
  rcases List.mem_filterMap.mp hp with ⟨e, he, hfe⟩
  cases hl : dictLookup e.1 nm with
  | none => rw [hl] at hfe; exact absurd hfe (by simp)
  | some n =>
    rw [hl] at hfe
    rw [Option.map_some', Option.some.injEq] at hfe
    rw [← hfe]
    exact List.mem_map.mpr ⟨e, he, rfl⟩

lemma warn_mem_keys (nm tm : List (String × String)) (k : String)
    (hk : k ∈ tm.filterMap
      (fun e => if (dictLookup e.1 nm).isSome then none else some e.1)) :
    k ∈ tm.map Prod.fst := by
  rcases List.mem_filterMap.mp hk with ⟨e, he, hfe⟩
  by_cases hl : (dictLookup e.1 nm).isSome
  · rw [if_pos hl] at hfe
    exact absurd hfe (by simp)
  · rw [if_neg hl, Option.some.injEq] at hfe
    rw [← hfe]
    exact List.mem_map.mpr ⟨e, he, rfl⟩

lemma warn_of_lookup_none (nm tm : List (String × String)) (k : String)
    (hmem : k ∈ tm.map Prod.fst) (hnone : dictLookup k nm = none) :
    k ∈ tm.filterMap (fun e => if (dictLookup e.1 nm).isSome then none else some e.1) := by
  rcases List.mem_map.mp hmem with ⟨e, he, hfst⟩
  refine List.mem_filterMap.mpr ⟨e, he, ?_⟩
  rw [hfst, hnone]
  simp

/-! ## Claim theorems -/

/-- C2: for a well-formed annotated variant file (every data line has the
eight mandatory VCF columns), `count_tmb_mutations` returns exactly the number
of non-header records whose FILTER column is `PASS` and whose CSQ annotation
carries at least one of the nine allow-listed consequence terms, each
qualifying record counted exactly once. -/
theorem claim_C2_count_tmb_mutations (lines : List String)
    (h : ∀ l ∈ lines, pyStartsWith l "#" = false →
      8 ≤ (pySplit (pyStrip l) "\t").length) :
    count_tmb_mutations tmb_effects lines
      = some (lines.countP (tmbQualifies tmb_effects)) :=
  count_tmb_eq_countP tmb_effects lines h

/-- Witness for C2: on the spec's file (one PASS `missense_variant` record,
one non-PASS `stop_gained` record) the count is exactly 1. -/
theorem claim_C2_witness :
    count_tmb_mutations tmb_effects demo_vcf = some 1 := by
  have h := claim_C2_count_tmb_mutations demo_vcf (by decide)
  rw [h]
  decide

/-- C3: for a region file whose qualifying lines all parse,
`get_coding_region_size` returns the sum of `(end - start)` over all
non-empty lines not beginning with `#`, divided by `1e6`. -/
theorem claim_C3_get_coding_region_size (lines : List String)
    (h : ∀ l ∈ lines, region_line_ok l = true → (parse_region_line l).isSome) :
    get_coding_region_size lines = some ((spec_region_sum lines : ℚ) / 1000000) := by
  simp [get_coding_region_size, total_bases_eq_spec lines h]

/-- Witness for C3: on the 3-line file with intervals (0,100), (200,250),
(1000,1500) the result is 0.00065. -/
theorem claim_C3_witness :
    get_coding_region_size demo_bed = some (0.00065 : ℚ) := by
  have h := claim_C3_get_coding_region_size demo_bed (by decide)
  rw [h]
  have hs : spec_region_sum demo_bed = 650 := by decide
  rw [hs]
  norm_num

/-- C6: the batch driver processes every pair regardless of earlier failures
(the result list follows the pair list exactly), `success_count` equals the
number of succeeding pairs, and the exit code is 0 iff all pairs succeeded;
on a 3-pair batch whose second pair fails this yields succeeded = 2
(so failed = 1) and exit code 1. -/
theorem claim_C6_run_batch :
    (∀ (pairs : List (String × String × String))
      (run : String → String → String → Bool),
      ((run_batch pairs run).1.map (fun r => r.1) = pairs.map (fun p => p.1))
      ∧ (run_batch pairs run).2.1 = pairs.countP (fun p => run p.1 p.2.1 p.2.2)
      ∧ ((run_batch pairs run).2.2 = 0 ↔ (run_batch pairs run).2.1 = pairs.length))
    ∧ run_batch [("P1", "t1", "n1"), ("P2", "t2", "n2"), ("P3", "t3", "n3")]
        (fun pid _ _ => decide (pid ≠ "P2"))
      = ([("P1", true), ("P2", false), ("P3", true)], 2, 1) := by
  constructor
  · intro pairs run
    refine ⟨by simp [run_batch], ?_, ?_⟩
    · simp [run_batch, List.countP_map]
      rfl
    · simp only [run_batch]
      split <;> simp_all
  · decide

/-- C4: when both conversions succeed and `bam2seqz` exits non-zero,
`process_sample` returns failure, its command trace is exactly the three
commands run so far (so no `seqz_binning` invocation appears in it for any
window or output), and neither intermediate BAM remains in the filesystem. -/
theorem claim_C4_cleanup_on_bam2seqz_failure
    (env : SeqEnv) (fasta gc : String) (binWidth threads : Nat)
    (fs0 : List String) (tcram ncram : String)
    (htc : env.tumorCram = some tcram) (hnc : env.normalCram = some ncram)
    (h1 : env.ok (samtools_view_cmd threads fasta (withSuffix ncram ".bam") ncram) = true)
    (h2 : env.ok (samtools_view_cmd threads fasta (withSuffix tcram ".bam") tcram) = true)
    (h3 : env.ok (bam2seqz_cmd (withSuffix ncram ".bam") (withSuffix tcram ".bam")
      fasta gc "sequenza_files/out.seqz.gz") = false)
    (hnd : fs0.Nodup) :
    (process_sample env fasta gc binWidth threads fs0).1 = false
    ∧ (process_sample env fasta gc binWidth threads fs0).2.1
        = [samtools_view_cmd threads fasta (withSuffix ncram ".bam") ncram,
           samtools_view_cmd threads fasta (withSuffix tcram ".bam") tcram,
           bam2seqz_cmd (withSuffix ncram ".bam") (withSuffix tcram ".bam")
             fasta gc "sequenza_files/out.seqz.gz"]
    ∧ (∀ (w : Nat) (out : String),
        seqz_binning_cmd "sequenza_files/out.seqz.gz" w out
          ∉ (process_sample env fasta gc binWidth threads fs0).2.1)
    ∧ withSuffix tcram ".bam" ∉ (process_sample env fasta gc binWidth threads fs0).2.2
    ∧ withSuffix ncram ".bam" ∉ (process_sample env fasta gc binWidth threads fs0).2.2 := by
  have hred : process_sample env fasta gc binWidth threads fs0
      = (false,
         [samtools_view_cmd threads fasta (withSuffix ncram ".bam") ncram,
          samtools_view_cmd threads fasta (withSuffix tcram ".bam") tcram,
          bam2seqz_cmd (withSuffix ncram ".bam") (withSuffix tcram ".bam")
            fasta gc "sequenza_files/out.seqz.gz"],
         cleanup_bams (withSuffix tcram ".bam") (withSuffix ncram ".bam")
           (insertFile (insertFile fs0 (withSuffix ncram ".bam"))
             (withSuffix tcram ".bam"))) := by
    simp [process_sample, htc, hnc, h1, h2, h3]
  have hnd2 : (insertFile (insertFile fs0 (withSuffix ncram ".bam"))
      (withSuffix tcram ".bam")).Nodup :=
    insertFile_nodup _ _ (insertFile_nodup _ _ hnd)
  have hcl := cleanup_bams_not_mem (withSuffix tcram ".bam") (withSuffix ncram ".bam")
    _ hnd2
  rw [hred]
  refine ⟨rfl, rfl, ?_, hcl.1, hcl.2⟩
  intro w out hm
  rcases List.mem_cons.mp hm with h | hm
  · exact seqz_binning_ne_samtools _ _ _ _ _ _ _ h
  rcases List.mem_cons.mp hm with h | hm
  · exact seqz_binning_ne_samtools _ _ _ _ _ _ _ h
  rcases List.mem_cons.mp hm with h | hm
  · exact seqz_binning_ne_bam2seqz _ _ _ _ _ _ _ _ h
  · exact List.not_mem_nil _ hm

/-- Demo environment for the C4 witness: `bam2seqz` is the one failing command. -/
def demo_env_fail_bam2seqz : SeqEnv :=
  ⟨some "t.cram", some "n.cram",
   fun c => decide (c ≠ bam2seqz_cmd "n.bam" "t.bam" "ref.fa" "gc.wig"
     "sequenza_files/out.seqz.gz")⟩

/-- Witness for C4 at a concrete environment. -/
theorem claim_C4_witness :
    (process_sample demo_env_fail_bam2seqz "ref.fa" "gc.wig" 50 8 []).1 = false
    ∧ (∀ (w : Nat) (out : String),
        seqz_binning_cmd "sequenza_files/out.seqz.gz" w out
          ∉ (process_sample demo_env_fail_bam2seqz "ref.fa" "gc.wig" 50 8 []).2.1)
    ∧ withSuffix "t.cram" ".bam"
        ∉ (process_sample demo_env_fail_bam2seqz "ref.fa" "gc.wig" 50 8 []).2.2
    ∧ withSuffix "n.cram" ".bam"
        ∉ (process_sample demo_env_fail_bam2seqz "ref.fa" "gc.wig" 50 8 []).2.2 := by
  have h := claim_C4_cleanup_on_bam2seqz_failure demo_env_fail_bam2seqz "ref.fa" "gc.wig"
    50 8 [] "t.cram" "n.cram" rfl rfl (by decide) (by decide) (by decide) List.nodup_nil
  exact ⟨h.1, h.2.2.1, h.2.2.2.1, h.2.2.2.2⟩

/-- C5: on a fully successful run, `process_sample` invokes exactly, and in
this order, the normal-CRAM conversion, the tumor-CRAM conversion, `bam2seqz`
over the pair with reference and GC file, and `seqz_binning` at the given
window width, then deletes the two intermediate BAMs; moreover, for every
verdict oracle, the trace is a prefix of that sequence and a command only ever
runs after all its predecessors exited with status 0. -/
theorem claim_C5_pipeline_order
    (env : SeqEnv) (fasta gc : String) (binWidth threads : Nat)
    (fs0 : List String) (tcram ncram : String)
    (htc : env.tumorCram = some tcram) (hnc : env.normalCram = some ncram)
    (hcr : tcram ≠ ncram)
    (h1 : env.ok (samtools_view_cmd threads fasta (withSuffix ncram ".bam") ncram) = true)
    (h2 : env.ok (samtools_view_cmd threads fasta (withSuffix tcram ".bam") tcram) = true)
    (h3 : env.ok (bam2seqz_cmd (withSuffix ncram ".bam") (withSuffix tcram ".bam")
      fasta gc "sequenza_files/out.seqz.gz") = true)
    (h4 : env.ok (seqz_binning_cmd "sequenza_files/out.seqz.gz" binWidth
      "sequenza_files/binned.out.seqz.gz") = true)
    (hnd : fs0.Nodup) :
    (process_sample env fasta gc binWidth threads fs0).1 = true
    ∧ (process_sample env fasta gc binWidth threads fs0).2.1
        = [samtools_view_cmd threads fasta (withSuffix ncram ".bam") ncram,
           samtools_view_cmd threads fasta (withSuffix tcram ".bam") tcram,
           bam2seqz_cmd (withSuffix ncram ".bam") (withSuffix tcram ".bam")
             fasta gc "sequenza_files/out.seqz.gz",
           seqz_binning_cmd "sequenza_files/out.seqz.gz" binWidth
             "sequenza_files/binned.out.seqz.gz"]
    ∧ withSuffix tcram ".bam" ∉ (process_sample env fasta gc binWidth threads fs0).2.2
    ∧ withSuffix ncram ".bam" ∉ (process_sample env fasta gc binWidth threads fs0).2.2
    ∧ (∀ ok2 : List String → Bool,
        ((process_sample ⟨some tcram, some ncram, ok2⟩ fasta gc binWidth threads fs0).2.1
          <+: [samtools_view_cmd threads fasta (withSuffix ncram ".bam") ncram,
               samtools_view_cmd threads fasta (withSuffix tcram ".bam") tcram,
               bam2seqz_cmd (withSuffix ncram ".bam") (withSuffix tcram ".bam")
                 fasta gc "sequenza_files/out.seqz.gz",
               seqz_binning_cmd "sequenza_files/out.seqz.gz" binWidth
                 "sequenza_files/binned.out.seqz.gz"])
        ∧ (samtools_view_cmd threads fasta (withSuffix tcram ".bam") tcram
            ∈ (process_sample ⟨some tcram, some ncram, ok2⟩ fasta gc binWidth threads fs0).2.1 →
           ok2 (samtools_view_cmd threads fasta (withSuffix ncram ".bam") ncram) = true)
        ∧ (bam2seqz_cmd (withSuffix ncram ".bam") (withSuffix tcram ".bam")
             fasta gc "sequenza_files/out.seqz.gz"
            ∈ (process_sample ⟨some tcram, some ncram, ok2⟩ fasta gc binWidth threads fs0).2.1 →
           ok2 (samtools_view_cmd threads fasta (withSuffix ncram ".bam") ncram) = true
           ∧ ok2 (samtools_view_cmd threads fasta (withSuffix tcram ".bam") tcram) = true)
        ∧ (seqz_binning_cmd "sequenza_files/out.seqz.gz" binWidth
             "sequenza_files/binned.out.seqz.gz"
            ∈ (process_sample ⟨some tcram, some ncram, ok2⟩ fasta gc binWidth threads fs0).2.1 →
           ok2 (samtools_view_cmd threads fasta (withSuffix ncram ".bam") ncram) = true
           ∧ ok2 (samtools_view_cmd threads fasta (withSuffix tcram ".bam") tcram) = true
           ∧ ok2 (bam2seqz_cmd (withSuffix ncram ".bam") (withSuffix tcram ".bam")
               fasta gc "sequenza_files/out.seqz.gz") = true)) := by
  have hc21 : samtools_view_cmd threads fasta (withSuffix tcram ".bam") tcram
      ≠ samtools_view_cmd threads fasta (withSuffix ncram ".bam") ncram :=
    fun h => hcr (samtools_view_inj_in _ _ _ _ _ _ h)
  have hred : process_sample env fasta gc binWidth threads fs0
      = (true,
         [samtools_view_cmd threads fasta (withSuffix ncram ".bam") ncram,
          samtools_view_cmd threads fasta (withSuffix tcram ".bam") tcram,
          bam2seqz_cmd (withSuffix ncram ".bam") (withSuffix tcram ".bam")
            fasta gc "sequenza_files/out.seqz.gz",
          seqz_binning_cmd "sequenza_files/out.seqz.gz" binWidth
            "sequenza_files/binned.out.seqz.gz"],
         cleanup_bams (withSuffix tcram ".bam") (withSuffix ncram ".bam")
           (insertFile (insertFile (insertFile (insertFile fs0
             (withSuffix ncram ".bam")) (withSuffix tcram ".bam"))
             "sequenza_files/out.seqz.gz") "sequenza_files/binned.out.seqz.gz")) := by
    simp [process_sample, htc, hnc, h1, h2, h3, h4]
  have hnd4 : (insertFile (insertFile (insertFile (insertFile fs0
      (withSuffix ncram ".bam")) (withSuffix tcram ".bam"))
      "sequenza_files/out.seqz.gz") "sequenza_files/binned.out.seqz.gz").Nodup :=
    insertFile_nodup _ _ (insertFile_nodup _ _ (insertFile_nodup _ _
      (insertFile_nodup _ _ hnd)))
  have hcl := cleanup_bams_not_mem (withSuffix tcram ".bam")
    (withSuffix ncram ".bam") _ hnd4
  rw [hred]
  refine ⟨rfl, rfl, hcl.1, hcl.2, ?_⟩
  intro ok2
  cases hk1 : ok2 (samtools_view_cmd threads fasta (withSuffix ncram ".bam") ncram) with
  | false =>
    have htr : (process_sample ⟨some tcram, some ncram, ok2⟩
        fasta gc binWidth threads fs0).2.1
        = [samtools_view_cmd threads fasta (withSuffix ncram ".bam") ncram] := by
      simp [process_sample, hk1]
    rw [htr]
    refine ⟨⟨_, rfl⟩, ?_, ?_, ?_⟩
    · intro hm
      rw [List.mem_singleton] at hm
      exact absurd hm hc21
    · intro hm
      rw [List.mem_singleton] at hm
      exact absurd hm (bam2seqz_ne_samtools _ _ _ _ _ _ _ _ _)
    · intro hm
      rw [List.mem_singleton] at hm
      exact absurd hm (seqz_binning_ne_samtools _ _ _ _ _ _ _)
  | true =>
    cases hk2 : ok2 (samtools_view_cmd threads fasta (withSuffix tcram ".bam") tcram) with
    | false =>
      have htr : (process_sample ⟨some tcram, some ncram, ok2⟩
          fasta gc binWidth threads fs0).2.1
          = [samtools_view_cmd threads fasta (withSuffix ncram ".bam") ncram,
             samtools_view_cmd threads fasta (withSuffix tcram ".bam") tcram] := by
        simp [process_sample, hk1, hk2]
      rw [htr]
      refine ⟨⟨_, rfl⟩, fun _ => rfl, ?_, ?_⟩
      · intro hm
        rcases List.mem_cons.mp hm with h | hm
        · exact absurd h (bam2seqz_ne_samtools _ _ _ _ _ _ _ _ _)
        rw [List.mem_singleton] at hm
        exact absurd hm (bam2seqz_ne_samtools _ _ _ _ _ _ _ _ _)
      · intro hm
        rcases List.mem_cons.mp hm with h | hm
        · exact absurd h (seqz_binning_ne_samtools _ _ _ _ _ _ _)
        rw [List.mem_singleton] at hm
        exact absurd hm (seqz_binning_ne_samtools _ _ _ _ _ _ _)
    | true =>
      cases hk3 : ok2 (bam2seqz_cmd (withSuffix ncram ".bam") (withSuffix tcram ".bam")
          fasta gc "sequenza_files/out.seqz.gz") with
      | false =>
        have htr : (process_sample ⟨some tcram, some ncram, ok2⟩
            fasta gc binWidth threads fs0).2.1
            = [samtools_view_cmd threads fasta (withSuffix ncram ".bam") ncram,
               samtools_view_cmd threads fasta (withSuffix tcram ".bam") tcram,
               bam2seqz_cmd (withSuffix ncram ".bam") (withSuffix tcram ".bam")
                 fasta gc "sequenza_files/out.seqz.gz"] := by
          simp [process_sample, hk1, hk2, hk3]
        rw [htr]
        refine ⟨⟨_, rfl⟩, fun _ => rfl, fun _ => ⟨rfl, rfl⟩, ?_⟩
        intro hm
        rcases List.mem_cons.mp hm with h | hm
        · exact absurd h (seqz_binning_ne_samtools _ _ _ _ _ _ _)
        rcases List.mem_cons.mp hm with h | hm
        · exact absurd h (seqz_binning_ne_samtools _ _ _ _ _ _ _)
        rw [List.mem_singleton] at hm
        exact absurd hm (seqz_binning_ne_bam2seqz _ _ _ _ _ _ _ _)
      | true =>
        cases hk4 : ok2 (seqz_binning_cmd "sequenza_files/out.seqz.gz" binWidth
            "sequenza_files/binned.out.seqz.gz") with
        | false =>
          have htr : (process_sample ⟨some tcram, some ncram, ok2⟩
              fasta gc binWidth threads fs0).2.1
              = [samtools_view_cmd threads fasta (withSuffix ncram ".bam") ncram,
                 samtools_view_cmd threads fasta (withSuffix tcram ".bam") tcram,
                 bam2seqz_cmd (withSuffix ncram ".bam") (withSuffix tcram ".bam")
                   fasta gc "sequenza_files/out.seqz.gz",
                 seqz_binning_cmd "sequenza_files/out.seqz.gz" binWidth
                   "sequenza_files/binned.out.seqz.gz"] := by
            simp [process_sample, hk1, hk2, hk3, hk4]
          rw [htr]
          exact ⟨⟨_, rfl⟩, fun _ => rfl, fun _ => ⟨rfl, rfl⟩, fun _ => ⟨rfl, rfl, rfl⟩⟩
        | true =>
          have htr : (process_sample ⟨some tcram, some ncram, ok2⟩
              fasta gc binWidth threads fs0).2.1
              = [samtools_view_cmd threads fasta (withSuffix ncram ".bam") ncram,
                 samtools_view_cmd threads fasta (withSuffix tcram ".bam") tcram,
                 bam2seqz_cmd (withSuffix ncram ".bam") (withSuffix tcram ".bam")
                   fasta gc "sequenza_files/out.seqz.gz",
                 seqz_binning_cmd "sequenza_files/out.seqz.gz" binWidth
                   "sequenza_files/binned.out.seqz.gz"] := by
            simp [process_sample, hk1, hk2, hk3, hk4]
          rw [htr]
          exact ⟨⟨_, rfl⟩, fun _ => rfl, fun _ => ⟨rfl, rfl⟩, fun _ => ⟨rfl, rfl, rfl⟩⟩

/-- Demo environment for the C5 witness: every command succeeds. -/
def demo_env_all_ok : SeqEnv := ⟨some "t.cram", some "n.cram", fun _ => true⟩

/-- Witness for C5 at a concrete environment with the default window width 50. -/
theorem claim_C5_witness :
    (process_sample demo_env_all_ok "ref.fa" "gc.wig" 50 8 []).1 = true
    ∧ (process_sample demo_env_all_ok "ref.fa" "gc.wig" 50 8 []).2.1
        = [samtools_view_cmd 8 "ref.fa" (withSuffix "n.cram" ".bam") "n.cram",
           samtools_view_cmd 8 "ref.fa" (withSuffix "t.cram" ".bam") "t.cram",
           bam2seqz_cmd (withSuffix "n.cram" ".bam") (withSuffix "t.cram" ".bam")
             "ref.fa" "gc.wig" "sequenza_files/out.seqz.gz",
           seqz_binning_cmd "sequenza_files/out.seqz.gz" 50
             "sequenza_files/binned.out.seqz.gz"]
    ∧ withSuffix "t.cram" ".bam"
        ∉ (process_sample demo_env_all_ok "ref.fa" "gc.wig" 50 8 []).2.2
    ∧ withSuffix "n.cram" ".bam"
        ∉ (process_sample demo_env_all_ok "ref.fa" "gc.wig" 50 8 []).2.2 := by
  have h := claim_C5_pipeline_order demo_env_all_ok "ref.fa" "gc.wig" 50 8 []
    "t.cram" "n.cram" rfl rfl (by decide) rfl rfl rfl rfl List.nodup_nil
  exact ⟨h.1, h.2.1, h.2.2.1, h.2.2.2.1⟩

/-- C7: the workspace-preparation phase of `run_sequenza` is idempotent —
running it a second time on its own output changes nothing (directories are
`exist_ok`, links are skipped when the target name exists) — and, starting
from a duplicate-free filesystem, it creates no duplicate entries. -/
theorem claim_C7_prepare_workspace_idempotent (outputRoot pid : String)
    (tumorFiles normalFiles fs : List String) :
    prepare_workspace outputRoot pid tumorFiles normalFiles
        (prepare_workspace outputRoot pid tumorFiles normalFiles fs)
      = prepare_workspace outputRoot pid tumorFiles normalFiles fs
    ∧ (fs.Nodup → (prepare_workspace outputRoot pid tumorFiles normalFiles fs).Nodup) := by
  constructor
  · have htD : outputRoot ++ "/" ++ pid ++ "/preprocessing/recalibrated/Tumour"
        ∈ prepare_workspace outputRoot pid tumorFiles normalFiles fs := by
      unfold prepare_workspace
      apply linkFiles_mono
      apply linkFiles_mono
      apply insertFile_mono
      exact insertFile_mem_self _ _
    have hnD : outputRoot ++ "/" ++ pid ++ "/preprocessing/recalibrated/Normal"
        ∈ prepare_workspace outputRoot pid tumorFiles normalFiles fs := by
      unfold prepare_workspace
      apply linkFiles_mono
      apply linkFiles_mono
      exact insertFile_mem_self _ _
    have htT : ∀ f ∈ globStarFiles tumorFiles,
        (pathSuffix f = ".cram" ∨ pathSuffix f = ".crai") →
        outputRoot ++ "/" ++ pid ++ "/preprocessing/recalibrated/Tumour" ++ "/" ++ f
          ∈ prepare_workspace outputRoot pid tumorFiles normalFiles fs := by
      intro f hf hsuf
      unfold prepare_workspace
      apply linkFiles_mono
      exact linkFiles_target_mem _ _ _ f hf hsuf
    have hnT : ∀ f ∈ globStarFiles normalFiles,
        (pathSuffix f = ".cram" ∨ pathSuffix f = ".crai") →
        outputRoot ++ "/" ++ pid ++ "/preprocessing/recalibrated/Normal" ++ "/" ++ f
          ∈ prepare_workspace outputRoot pid tumorFiles normalFiles fs := by
      intro f hf hsuf
      unfold prepare_workspace
      exact linkFiles_target_mem _ _ _ f hf hsuf
    exact prepare_workspace_fixed outputRoot pid tumorFiles normalFiles _
      htD hnD htT hnT
  · intro h
    unfold prepare_workspace
    exact linkFiles_nodup _ _ _ (linkFiles_nodup _ _ _
      (insertFile_nodup _ _ (insertFile_nodup _ _ h)))

/-- Witness for C7 at a concrete sample pair and empty initial filesystem. -/
theorem claim_C7_witness :
    prepare_workspace "out" "P7" ["t.cram", "t.cram.crai", ".h.cram", "notes.txt"] ["n.cram"]
        (prepare_workspace "out" "P7" ["t.cram", "t.cram.crai", ".h.cram", "notes.txt"]
          ["n.cram"] [])
      = prepare_workspace "out" "P7" ["t.cram", "t.cram.crai", ".h.cram", "notes.txt"]
          ["n.cram"] []
    ∧ (prepare_workspace "out" "P7" ["t.cram", "t.cram.crai", ".h.cram", "notes.txt"]
        ["n.cram"] []).Nodup := by
  have h := claim_C7_prepare_workspace_idempotent "out" "P7"
    ["t.cram", "t.cram.crai", ".h.cram", "notes.txt"] ["n.cram"] []
  exact ⟨h.1, h.2 List.nodup_nil⟩

/-- C1 counterexample: for patient id `Normal1` the root holds exactly the
folders `Normal1_Normal` and `Normal1_Tumour`, the only two folders deriving
any patient id, yet `find_sample_pairs` returns no pair at all (the claim
demands exactly one pair with patient_id `Normal1`): because the `"Normal" in
name` test runs first, `Normal1_Tumour` is classified as a normal sample. -/
theorem claim_C1_counterexample :
    find_sample_pairs [("Normal1_Normal", true), ("Normal1_Tumour", true)]
      = ([], []) := by decide

/-- C1 (amended): the original claim holds provided the patient id itself is
tag-free — it contains none of the substrings `Normal`, `_Tumour`, `_Tumor`,
stated operationally: `{id}_Normal` strips back to `id`, `{id}_Tumour` does
not contain `Normal`, carries a tumour tag, and strips back to `id`.  Then a
root whose entries include the `{id}_Normal` and `{id}_Tumour` directories,
and no other entry deriving patient id `id`, yields exactly one SamplePair
with patient_id `id`, tumor_path `{id}_Tumour`, normal_path `{id}_Normal`. -/
theorem claim_C1_amended (dirs : List (String × Bool)) (id : String)
    (hn : (id ++ "_Normal", true) ∈ dirs)
    (ht : (id ++ "_Tumour", true) ∈ dirs)
    (hN1 : pyIn "Normal" (id ++ "_Normal") = true)
    (hsn : stripNormalTag (id ++ "_Normal") = id)
    (hTn : pyIn "Normal" (id ++ "_Tumour") = false)
    (hTt : (pyIn "Tumour" (id ++ "_Tumour") || pyIn "Tumor" (id ++ "_Tumour")) = true)
    (hst : stripTumourTag (id ++ "_Tumour") = id)
    (hother : ∀ e ∈ dirs, e = (id ++ "_Normal", true) ∨ e = (id ++ "_Tumour", true)
      ∨ derivedPid e ≠ some id) :
    (find_sample_pairs dirs).1.filter (fun p => decide (p.1 = id))
      = [(id, id ++ "_Tumour", id ++ "_Normal")] := by
  have hinv := classify_pair_invariant id (id ++ "_Normal") (id ++ "_Tumour")
    hN1 hsn hTn hTt hst dirs [] [] hother List.nodup_nil
  have hlook : dictLookup id (classifyDirs dirs).1 = some (id ++ "_Normal") := by
    have h1 := hinv.1
    rw [if_pos hn] at h1
    exact h1
  have hfilt : (classifyDirs dirs).2.filter (fun e => decide (e.1 = id))
      = [(id, id ++ "_Tumour")] := by
    have h2 := hinv.2.1
    rw [if_pos ht] at h2
    exact h2
  show ((classifyDirs dirs).2.filterMap
      (fun e => (dictLookup e.1 (classifyDirs dirs).1).map
        (fun n => (e.1, e.2, n)))).filter (fun p => decide (p.1 = id)) = _
  rw [pairs_filter_key, hfilt]
  simp [List.filterMap_cons, hlook]

/-- Witness for C1 (amended) at a concrete root directory. -/
theorem claim_C1_witness :
    (∀ e ∈ ([("P7_Normal", true), ("P7_Tumour", true), ("notes", true)] :
        List (String × Bool)),
      e = ("P7_Normal", true) ∨ e = ("P7_Tumour", true) ∨ derivedPid e ≠ some "P7")
    ∧ (find_sample_pairs
        [("P7_Normal", true), ("P7_Tumour", true), ("notes", true)]).1.filter
        (fun p => decide (p.1 = "P7"))
      = [("P7", "P7_Tumour", "P7_Normal")] :=
  ⟨by decide,
    claim_C1_amended [("P7_Normal", true), ("P7_Tumour", true), ("notes", true)] "P7"
      (by decide) (by decide) (by decide) (by decide) (by decide) (by decide)
      (by decide) (by decide)⟩

/-- C8: a patient id never derived by any tumour-classified folder (in
particular one present only as `X_Normal`) gets no pair and no warning; a
tumour-mapping entry whose id is absent from the normal mapping is warned
about; and an entry matching neither tag is silently ignored — removing it
from the scan changes nothing. -/
theorem claim_C8_normal_only_asymmetry (dirs : List (String × Bool)) (X : String) :
    ((X ++ "_Normal", true) ∈ dirs →
      (∀ e ∈ dirs, tumourDerived e ≠ some X) →
      (∀ p ∈ (find_sample_pairs dirs).1, p.1 ≠ X)
        ∧ X ∉ (find_sample_pairs dirs).2)
    ∧ (∀ k, k ∈ ((classifyDirs dirs).2.map Prod.fst) →
        dictLookup k (classifyDirs dirs).1 = none →
        k ∈ (find_sample_pairs dirs).2)
    ∧ (∀ e : String × Bool, pyIn "Normal" e.1 = false →
        pyIn "Tumour" e.1 = false → pyIn "Tumor" e.1 = false →
        ∀ pre post, find_sample_pairs (pre ++ e :: post)
          = find_sample_pairs (pre ++ post)) := by
  refine ⟨?_, ?_, ?_⟩
  · intro _ hnotum
    have hkeys : X ∉ ((classifyDirs dirs).2.map Prod.fst) := by
      intro hX
      rcases tumour_keys_cover dirs [] [] X hX with h | ⟨e, he, hde⟩
      · simp at h
      · exact hnotum e he hde
    constructor
    · intro p hp heq
      have := pairs_pid_mem_keys (classifyDirs dirs).1 (classifyDirs dirs).2 p hp
      rw [heq] at this
      exact hkeys this
    · intro hw
      exact hkeys (warn_mem_keys (classifyDirs dirs).1 (classifyDirs dirs).2 X hw)
  · intro k hk hnone
    exact warn_of_lookup_none (classifyDirs dirs).1 (classifyDirs dirs).2 k hk hnone
  · intro e hn ht1 ht2 pre post
    have hstep : ∀ m : List (String × String) × List (String × String),
        classifyStep m e = m := by
      intro m
      obtain ⟨nm, tm⟩ := m
      exact classifyStep_skip_tag nm tm e hn (by simp [ht1, ht2])
    have hfold : classifyDirs (pre ++ e :: post) = classifyDirs (pre ++ post) := by
      unfold classifyDirs
      rw [List.foldl_append, List.foldl_append, List.foldl_cons, hstep]
    unfold find_sample_pairs
    rw [hfold]

/-- Witness for C8 at a concrete root with a normal-only and a tumour-only
folder: `A` (normal-only) is not warned about. -/
theorem claim_C8_witness :
    (∀ e ∈ ([("A_Normal", true), ("B_Tumour", true), ("junk", true)] :
        List (String × Bool)), tumourDerived e ≠ some "A")
    ∧ "A" ∉ (find_sample_pairs
        [("A_Normal", true), ("B_Tumour", true), ("junk", true)]).2 :=
  ⟨by decide,
    ((claim_C8_normal_only_asymmetry
      [("A_Normal", true), ("B_Tumour", true), ("junk", true)] "A").1
      (by decide) (by decide)).2⟩

/-- C9: every patient id occurs at most once among the returned pairs, and
each pair's tumor_path and normal_path name directories that were scanned as
immediate subdirectories of the root. -/
theorem claim_C9_pair_invariants (dirs : List (String × Bool)) :
    ((find_sample_pairs dirs).1.map (fun p => p.1)).Nodup
    ∧ (∀ p ∈ (find_sample_pairs dirs).1,
        (p.2.1, true) ∈ dirs ∧ (p.2.2, true) ∈ dirs) := by
  constructor
  · have hkeys : (((classifyDirs dirs).2).map Prod.fst).Nodup :=
      classify_keys_nodup dirs [] [] List.nodup_nil
    exact (pairs_map_fst_sublist (classifyDirs dirs).1 (classifyDirs dirs).2).nodup hkeys
  · intro p hp
    have hvals := classify_values dirs [] []
    rcases List.mem_filterMap.mp hp with ⟨e, he, hfe⟩
    cases hl : dictLookup e.1 (classifyDirs dirs).1 with
    | none => rw [hl] at hfe; exact absurd hfe (by simp)
    | some n =>
      rw [hl] at hfe
      rw [Option.map_some', Option.some.injEq] at hfe
      have hnm : (e.1, n) ∈ (classifyDirs dirs).1 :=
        dictLookup_mem (classifyDirs dirs).1 e.1 n hl
      have h1 : (e.2, true) ∈ dirs := by
        rcases hvals.2 e he with h | h
        · exact absurd h (List.not_mem_nil e)
        · exact h
      have h2 : (n, true) ∈ dirs := by
        rcases hvals.1 (e.1, n) hnm with h | h
        · exact absurd h (List.not_mem_nil _)
        · exact h
      rw [← hfe]
      exact ⟨h1, h2⟩

/-- Witness for C9 at a concrete root directory. -/
theorem claim_C9_witness :
    ((find_sample_pairs [("P7_Normal", true), ("P7_Tumour", true)]).1.map
      (fun p => p.1)).Nodup
    ∧ (("P7_Tumour", true)
        ∈ ([("P7_Normal", true), ("P7_Tumour", true)] : List (String × Bool))
      ∧ ("P7_Normal", true)
        ∈ ([("P7_Normal", true), ("P7_Tumour", true)] : List (String × Bool))) :=
  ⟨(claim_C9_pair_invariants [("P7_Normal", true), ("P7_Tumour", true)]).1,
    (claim_C9_pair_invariants [("P7_Normal", true), ("P7_Tumour", true)]).2
      ("P7", "P7_Tumour", "P7_Normal") (by decide)⟩

/-- C10: the `"Normal" in name` test runs first, so a directory whose name
contains both a Normal and a Tumour/Tumor tag is classified as a normal
sample only (inserted into the normal mapping, tumour mapping untouched);
accordingly, no value stored in the tumour mapping ever contains `Normal`. -/
theorem claim_C10_normal_precedence :
    (∀ (nm tm : List (String × String)) (name : String),
      pyIn "Normal" name = true →
      (pyIn "Tumour" name = true ∨ pyIn "Tumor" name = true) →
      classifyStep (nm, tm) (name, true)
        = (dictInsert nm (stripNormalTag name) name, tm))
    ∧ (∀ (dirs : List (String × Bool)) (kv : String × String),
        kv ∈ (classifyDirs dirs).2 → pyIn "Normal" kv.2 = false) := by
  constructor
  · intro nm tm name hn _
    exact classifyStep_normal nm tm (name, true) rfl hn
  · intro dirs kv hkv
    refine tumour_values_inv (fun v => pyIn "Normal" v = false) dirs [] []
      (by intro kv2 h; exact absurd h (List.not_mem_nil kv2)) ?_ kv hkv
    intro e _ _ hn _
    exact hn

/-- Witness for C10 at a folder name carrying both tags. -/
theorem claim_C10_witness :
    classifyStep ([], []) ("X_Normal_Tumour", true)
      = (dictInsert [] (stripNormalTag "X_Normal_Tumour") "X_Normal_Tumour", []) :=
  claim_C10_normal_precedence.1 [] [] "X_Normal_Tumour" (by decide)
    (Or.inl (by decide))
